import Mathlib

/-!
Shallow embedding of `src/pam/rpassword.rs` (secret entry for an
authentication prompt): the silent password read `read_unbuffered`, the
masked-feedback read `read_unbuffered_with_feedback`, the terminal-mode
guard `HiddenInput`, and the `Terminal` operations composing them.

Modelling choices:
* The secret buffer `PamBuffer` is a `List Nat` of `CAPACITY` bytes.
* The input source is a pure list of bytes, consumed from the front; each
  read function returns the unconsumed remainder so that consumption is
  visible in the model.
* The output sink is a state holding the bytes successfully written so far
  together with a function `accepts` deciding whether the n-th `write` call
  succeeds; this models fallible display writes.
* The terminal device's settings are threaded explicitly: `tcsetattr`
  replaces the device state, `HiddenInput.new` snapshots and modifies it,
  `HiddenInput.drop` restores the snapshot.
-/

set_option maxRecDepth 8192

namespace RPassword

/-- Error kinds surfaced by the read operations: `secretTooLong` is the
`ErrorKind::OutOfMemory` "incorrect password attempt" error raised when the
buffer is full, `ioError` stands for a propagated I/O failure (here: the
failed write of the terminating newline). -/
inductive ReadError where
  | secretTooLong
  | ioError
deriving DecidableEq

/-- Modelled from the spec: total size of the secret buffer (`PamBuffer`
from the `securemem` module, which is outside this source tree): a
"fixed-size array of bytes (capacity C, e.g. 512) ... always initialized to
zero on creation". -/
def CAPACITY : Nat := 512

/-- Modelled from the spec: number of writable slots of the buffer.
"write_at(index, byte) fails with CapacityExceeded if index >= C-1 (one slot
reserved)", so `iter_mut`/`get_mut` expose exactly `CAPACITY - 1` slots.
The in-repo miri tests (511 bytes succeed, 512 bytes fail) pin this bound. -/
def SIZE : Nat := 511

/-- Modelled from the spec: `PamBuffer::default()`, a zero-filled buffer of
`CAPACITY` bytes. -/
def PamBuffer.default : List Nat := List.replicate CAPACITY 0

/-- The loop of `read_unbuffered`: `source.bytes().take_while(|x| x != EOL)`
zipped against the remaining writable slots. `buf` is the buffer so far,
`idx` the next free slot (the state of `pwd_iter`). Returns the result and
the unconsumed part of the source. A byte is pulled from the source before
the slot check, so on the error path the overflowing byte has been consumed. -/
def silentLoop : List Nat → Nat → List Nat → Except ReadError (List Nat) × List Nat
  | buf, _, [] => (.ok buf, [])
  | buf, idx, b :: rest =>
    if b = 10 then (.ok buf, rest)
    else if idx < SIZE then silentLoop (buf.set idx b) (idx + 1) rest
    else (.error .secretTooLong, rest)

/-- `read_unbuffered`: reads bytes into a fresh `PamBuffer` until a newline
(consumed, not stored) or end of stream; fails with `secretTooLong` when a
byte arrives and no writable slot is left. -/
def read_unbuffered (source : List Nat) : Except ReadError (List Nat) × List Nat :=
  silentLoop PamBuffer.default 0 source

/-- `BACKSPACE` control byte. -/
def BACKSPACE : Nat := 8

/-- The three-byte erase sequence `[BACKSPACE, ' ', BACKSPACE]` written to
the display to visually remove one mask character. -/
def eraseSeq : List Nat := [BACKSPACE, 32, BACKSPACE]

/-- Display sink: `accepts n` decides whether the n-th write call succeeds,
`calls` counts the write calls made so far, `written` accumulates the bytes
of the successful writes. -/
structure Sink where
  accepts : Nat → Bool
  calls : Nat
  written : List Nat

/-- One `sink.write(..)` call: every call advances the call counter; a
successful call appends its bytes to the trace. Returns whether the call
succeeded together with the new sink state. -/
def Sink.write (s : Sink) (bs : List Nat) : Bool × Sink :=
  if s.accepts s.calls then
    (true, { s with calls := s.calls + 1, written := s.written ++ bs })
  else
    (false, { s with calls := s.calls + 1 })

/-- `erase_feedback(sink, i)`: writes the erase sequence `i` times, stopping
early (and swallowing the error) as soon as one write fails. -/
def erase_feedback : Sink → Nat → Sink
  | sink, 0 => sink
  | sink, n + 1 =>
    let r := sink.write eraseSeq
    if r.1 then erase_feedback r.2 n else r.2

/-- The terminal settings (`struct termios`) restricted to the fields the
code uses: the local-mode flag word and the three control character codes
`c_cc[VEOF]`, `c_cc[VERASE]`, `c_cc[VKILL]`. -/
structure Termios where
  lflag : Nat
  veof : Nat
  verase : Nat
  vkill : Nat
deriving DecidableEq

/-- `ECHO` local-mode bit (Linux value). -/
def ECHO : Nat := 8
/-- `ECHONL` local-mode bit (Linux value). -/
def ECHONL : Nat := 64
/-- `ICANON` local-mode bit (Linux value). -/
def ICANON : Nat := 2
/-- All 32 bits of a `tcflag_t`, for complementing a mask. -/
def FLAGMASK : Nat := 2 ^ 32 - 1

/-- The settings `HiddenInput::new` applies for the duration of the read:
echo off (`c_lflag &= !ECHO`), newline echo on (`c_lflag |= ECHONL`), and,
only for feedback mode, canonical mode off (`c_lflag &= !ICANON`). -/
def hiddenTermios (feedback : Bool) (t : Termios) : Termios :=
  let l := t.lflag &&& (FLAGMASK ^^^ ECHO)
  let l := l ||| ECHONL
  let l := if feedback then l &&& (FLAGMASK ^^^ ICANON) else l
  { t with lflag := l }

/-- The guard: owns the pristine settings snapshot `term_orig` taken by the
second `tcgetattr` in `HiddenInput::new`. -/
structure HiddenInput where
  term_orig : Termios

/-- `tcsetattr(fd, TCSANOW, &new)` modelled as replacing the device's
settings by `new`. -/
def tcsetattr (_dev new : Termios) : Termios := new

/-- `HiddenInput::new(feedback)`. The device parameter is the settings of
`/dev/tty`, or `none` when the device cannot be opened — in which case the
function returns `Ok(None)` ("if we have nothing to show, we have nothing to
hide") and touches nothing. Otherwise it snapshots the settings and applies
the hidden mode. Returns the `io::Result` of the guard option together with
the device state afterwards (`tcgetattr`/`tcsetattr` are modelled as
succeeding). -/
def HiddenInput.new (feedback : Bool) :
    Option Termios → Except ReadError (Option HiddenInput) × Option Termios
  | none => (.ok none, none)
  | some t => (.ok (some ⟨t⟩), some (tcsetattr t (hiddenTermios feedback t)))

/-- `Drop for HiddenInput`: unconditionally re-applies the pristine snapshot
to the device. -/
def HiddenInput.drop (h : HiddenInput) (dev : Termios) : Termios :=
  tcsetattr dev h.term_orig

/-- The buffer-clearing part of the `VEOF` loop of
`read_unbuffered_with_feedback`: `while i > 0 { password[i-1] = 0; i -= 1; .. }`,
zeroing slots `i-1` down to `0`. (The loop's interleaved display writes act
on the disjoint sink state and are `eofEraseLoop` below.) -/
def zeroDown : List Nat → Nat → List Nat
  | buf, 0 => buf
  | buf, n + 1 => zeroDown (buf.set n 0) n

/-- The display part of the `VEOF` loop: one erase-sequence write per
removed character, each with `let _ = ..` (failures ignored, the loop keeps
going — unlike `erase_feedback`, which stops at the first failure). -/
def eofEraseLoop : Sink → Nat → Sink
  | sink, 0 => sink
  | sink, n + 1 => eofEraseLoop (sink.write eraseSeq).2 n

/-- The loop of `read_unbuffered_with_feedback`, with `cc` the pristine
settings snapshot `hide_input.term_orig`. `buf` is the buffer, `i` the
current length, then the unconsumed source and the sink. Branches in source
order: newline / carriage return, `c_cc[VEOF]`, `c_cc[VERASE]`,
`c_cc[VKILL]`, plain byte. -/
def feedbackLoop (cc : Termios) :
    List Nat → Nat → List Nat → Sink → Except ReadError (List Nat) × List Nat × Sink
  | buf, _, [], sink => (.ok buf, [], sink)
  | buf, i, b :: rest, sink =>
    if b = 10 ∨ b = 13 then
      let sink := erase_feedback sink i
      let r := sink.write [10]
      if r.1 then (.ok buf, rest, r.2) else (.error .ioError, rest, r.2)
    else if b = cc.veof then
      (.ok (zeroDown buf i), rest, eofEraseLoop sink i)
    else if b = cc.verase then
      if 0 < i then
        feedbackLoop cc (buf.set (i - 1) 0) (i - 1) rest (sink.write eraseSeq).2
      else
        feedbackLoop cc buf i rest sink
    else if b = cc.vkill then
      feedbackLoop cc (zeroDown buf i) 0 rest (erase_feedback sink i)
    else
      if i < SIZE then
        feedbackLoop cc (buf.set i b) (i + 1) rest (sink.write [42]).2
      else
        (.error .secretTooLong, rest, erase_feedback sink i)

/-- `read_unbuffered_with_feedback(source, sink, hide_input)`: the feedback
loop started on a fresh zero-filled buffer at length 0. -/
def read_unbuffered_with_feedback (cc : Termios) (source : List Nat) (sink : Sink) :
    Except ReadError (List Nat) × List Nat × Sink :=
  feedbackLoop cc PamBuffer.default 0 source sink

/-- `Terminal::read_password`: acquire the guard in canonical mode, run the
silent read, drop the guard (restoring the device settings). The device
state is threaded through; the read result's two components are the buffer
outcome and the unconsumed input. -/
def Terminal.read_password (dev : Option Termios) (source : List Nat) :
    (Except ReadError (List Nat) × List Nat) × Option Termios :=
  match HiddenInput.new false dev with
  | (.error e, dev') => ((.error e, source), dev')
  | (.ok none, dev') => (read_unbuffered source, dev')
  | (.ok (some h), dev') => (read_unbuffered source, dev'.map fun d => h.drop d)

/-- `Terminal::read_password_with_feedback`: acquire the guard in
character-by-character mode; with a guard, run the feedback read and drop
the guard; with no guard (no `/dev/tty`), fall back to the silent read over
the session's channel (the sink is not written to). -/
def Terminal.read_password_with_feedback (dev : Option Termios) (source : List Nat)
    (sink : Sink) :
    (Except ReadError (List Nat) × List Nat × Sink) × Option Termios :=
  match HiddenInput.new true dev with
  | (.error e, dev') => ((.error e, source, sink), dev')
  | (.ok none, dev') =>
    let r := read_unbuffered source
    ((r.1, r.2, sink), dev')
  | (.ok (some h), dev') =>
    (read_unbuffered_with_feedback h.term_orig source sink, dev'.map fun d => h.drop d)

/-- `Terminal::read_cleartext`: the silent read with no guard; the device
settings are untouched. -/
def Terminal.read_cleartext (dev : Option Termios) (source : List Nat) :
    (Except ReadError (List Nat) × List Nat) × Option Termios :=
  (read_unbuffered source, dev)

/-! ### Helper lemmas: the silent read -/

/-- Ghost function: writing the bytes of `p` into consecutive slots of
`buf` starting at `idx` — the cumulative effect of the `*dest = read_byte`
assignments of `read_unbuffered`. -/
def writeSeq : List Nat → Nat → List Nat → List Nat
  | buf, _, [] => buf
  | buf, idx, b :: p => writeSeq (buf.set idx b) (idx + 1) p

theorem writeSeq_cons (c : Nat) (buf : List Nat) (idx : Nat) (p : List Nat) :
    writeSeq (c :: buf) (idx + 1) p = c :: writeSeq buf idx p := by
  induction p generalizing c buf idx with
  | nil => rfl
  | cons b p ih =>
    show writeSeq ((c :: buf).set (idx + 1) b) (idx + 2) p = _
    rw [List.set_cons_succ, ih]
    rfl

theorem writeSeq_from_zero (p : List Nat) :
    ∀ buf : List Nat, p.length ≤ buf.length →
      writeSeq buf 0 p = p ++ buf.drop p.length := by
  induction p with
  | nil => intro buf _; simp [writeSeq]
  | cons b p ih =>
    intro buf hlen
    match buf with
    | c :: buf =>
      show writeSeq ((c :: buf).set 0 b) 1 p = _
      rw [List.set_cons_zero, writeSeq_cons, ih buf (by simpa using hlen)]
      rfl

theorem silentLoop_ok (p : List Nat) :
    ∀ (rest buf : List Nat) (idx : Nat), (∀ b ∈ p, b ≠ 10) →
      idx + p.length ≤ SIZE →
      silentLoop buf idx (p ++ 10 :: rest) = (.ok (writeSeq buf idx p), rest) := by
  induction p with
  | nil =>
    intro rest buf idx _ _
    simp [silentLoop, writeSeq]
  | cons b p ih =>
    intro rest buf idx hnl hlen
    have hb : b ≠ 10 := hnl b (List.mem_cons_self ..)
    have hidx : idx < SIZE := by simp at hlen; omega
    show silentLoop buf idx (b :: (p ++ 10 :: rest)) = _
    rw [silentLoop, if_neg hb, if_pos hidx]
    exact ih rest (buf.set idx b) (idx + 1)
      (fun x hx => hnl x (List.mem_cons_of_mem _ hx)) (by simp at hlen ⊢; omega)

theorem silentLoop_err (p : List Nat) :
    ∀ (b : Nat) (rest buf : List Nat) (idx : Nat), (∀ x ∈ p, x ≠ 10) → b ≠ 10 →
      idx + p.length = SIZE →
      silentLoop buf idx (p ++ b :: rest) = (.error .secretTooLong, rest) := by
  induction p with
  | nil =>
    intro b rest buf idx _ hb hlen
    have : ¬ idx < SIZE := by simp at hlen; omega
    show silentLoop buf idx (b :: rest) = _
    rw [silentLoop, if_neg hb, if_neg this]
  | cons x p ih =>
    intro b rest buf idx hnl hb hlen
    have hx : x ≠ 10 := hnl x (List.mem_cons_self ..)
    have hidx : idx < SIZE := by simp at hlen; omega
    show silentLoop buf idx (x :: (p ++ b :: rest)) = _
    rw [silentLoop, if_neg hx, if_pos hidx]
    exact ih b rest (buf.set idx x) (idx + 1)
      (fun y hy => hnl y (List.mem_cons_of_mem _ hy)) hb (by simp at hlen ⊢; omega)

/-- Full characterisation of a successful silent read: for a source whose
first newline comes after `p` (with `p` fitting in the writable slots), the
result is `p` padded with zeros, the newline is consumed, and everything
after it is left in the source. -/
theorem read_unbuffered_ok (p rest : List Nat) (hnl : ∀ b ∈ p, b ≠ 10)
    (hlen : p.length ≤ SIZE) :
    read_unbuffered (p ++ 10 :: rest)
      = (.ok (p ++ List.replicate (CAPACITY - p.length) 0), rest) := by
  rw [read_unbuffered, silentLoop_ok p rest PamBuffer.default 0 hnl (by omega)]
  rw [writeSeq_from_zero p PamBuffer.default
    (by simp only [SIZE] at hlen; simp only [PamBuffer.default, List.length_replicate, CAPACITY]; omega)]
  simp [PamBuffer.default, List.drop_replicate]

/-! ### Claims C1 and C2 -/

/-- Claim C1: for every input byte sequence containing a newline whose
prefix `p` before that newline is shorter than the buffer capacity, the
silent read succeeds with a buffer whose leading bytes are exactly `p` and
whose remaining bytes are zero; the newline is consumed and the bytes after
it remain unconsumed by the call. -/
theorem claim_C1_silent_read (p rest : List Nat) (hnl : ∀ b ∈ p, b ≠ 10)
    (hlen : p.length < CAPACITY) :
    read_unbuffered (p ++ 10 :: rest)
      = (.ok (p ++ List.replicate (CAPACITY - p.length) 0), rest) :=
  read_unbuffered_ok p rest hnl (by simp [CAPACITY] at hlen; simp [SIZE]; omega)

/-- Witness for C1 at the input of the in-repo miri test:
`"password123\nhello world"`. -/
theorem claim_C1_witness :
    (∀ b ∈ [112, 97, 115, 115, 119, 111, 114, 100, 49, 50, 51], b ≠ 10) ∧
    ([112, 97, 115, 115, 119, 111, 114, 100, 49, 50, 51] : List Nat).length < CAPACITY ∧
    read_unbuffered ([112, 97, 115, 115, 119, 111, 114, 100, 49, 50, 51] ++
        10 :: [104, 101, 108, 108, 111, 32, 119, 111, 114, 108, 100])
      = (.ok ([112, 97, 115, 115, 119, 111, 114, 100, 49, 50, 51] ++
          List.replicate (CAPACITY - 11) 0),
         [104, 101, 108, 108, 111, 32, 119, 111, 114, 108, 100]) :=
  ⟨by decide, by decide,
    claim_C1_silent_read [112, 97, 115, 115, 119, 111, 114, 100, 49, 50, 51]
      [104, 101, 108, 108, 111, 32, 119, 111, 114, 108, 100] (by decide) (by decide)⟩

/-- Counterexample to claim C2 as stated: the input of 511 bytes `'a'`
followed by one newline has length 512 ≥ capacity and contains no newline
within its first capacity − 1 = 511 bytes, yet the silent read succeeds
(the newline in position 512 is found in time), refuting "fails with
SecretTooLong". -/
theorem claim_C2_counterexample :
    ¬ (∀ l : List Nat, CAPACITY ≤ l.length →
        (∀ (i : Nat) (h : i < l.length), i < CAPACITY - 1 → l.get ⟨i, h⟩ ≠ 10) →
        (read_unbuffered l).1 = .error .secretTooLong) := by
  intro hclaim
  have hok : read_unbuffered (List.replicate 511 97 ++ 10 :: [])
      = (.ok (List.replicate 511 97 ++ List.replicate (CAPACITY - 511) 0), []) := by
    refine read_unbuffered_ok _ _ (fun b hb => ?_) (by simp [SIZE])
    rw [(List.mem_replicate.1 hb).2]
    decide
  have hbad := hclaim (List.replicate 511 97 ++ 10 :: [])
    (by simp [CAPACITY]) ?lt
  case lt =>
    intro i h hi
    have h511 : i < (List.replicate 511 97 : List Nat).length := by simpa [CAPACITY] using hi
    rw [List.get_eq_getElem, List.getElem_append_left h511, List.getElem_replicate]
    decide
  rw [hok] at hbad
  exact absurd hbad (by simp)

/-- Claim C2 as amended: for every input of length ≥ capacity that contains
no newline within its first capacity bytes (rather than capacity − 1), the
silent read fails with the SecretTooLong error. -/
theorem claim_C2_amended (l : List Nat) (hlen : CAPACITY ≤ l.length)
    (hnl : ∀ (i : Nat) (h : i < l.length), i < CAPACITY → l.get ⟨i, h⟩ ≠ 10) :
    (read_unbuffered l).1 = .error .secretTooLong := by
  have h511 : (511 : Nat) < l.length := by simp [CAPACITY] at hlen; omega
  have hsplit : l = l.take 511 ++ l[511] :: l.drop 512 := by
    rw [← List.drop_eq_getElem_cons h511, List.take_append_drop]
  have herr : silentLoop PamBuffer.default 0 (l.take 511 ++ l[511] :: l.drop 512)
      = (.error .secretTooLong, l.drop 512) := by
    refine silentLoop_err (l.take 511) l[511] (l.drop 512) PamBuffer.default 0
      (fun x hx => ?_) ?_ ?_
    · obtain ⟨i, hi, hx⟩ := List.mem_iff_getElem.1 hx
      have hi' : i < 511 := by simpa [List.length_take, h511.le] using hi
      have := hnl i (by omega) (by simp [CAPACITY]; omega)
      rw [List.get_eq_getElem] at this
      rw [← hx, List.getElem_take]
      exact this
    · have := hnl 511 h511 (by simp [CAPACITY])
      rwa [List.get_eq_getElem] at this
    · simp [List.length_take, SIZE]
      omega
  rw [← hsplit] at herr
  rw [read_unbuffered, herr]

/-- Witness for the amended C2 at the input of the in-repo miri test:
512 bytes `'a'` and no newline at all. -/
theorem claim_C2_witness :
    CAPACITY ≤ (List.replicate 512 97 : List Nat).length ∧
    (read_unbuffered (List.replicate 512 97)).1 = .error .secretTooLong :=
  ⟨by decide,
    claim_C2_amended (List.replicate 512 97) (by decide)
      (fun i h _ => by rw [List.get_eq_getElem, List.getElem_replicate]; decide)⟩

/-! ### Claims C3 and C8: guard acquisition, restoration and fallback -/

/-- Claim C3: on a terminal-device session, after `read_password`,
`read_password_with_feedback` or `read_cleartext` — whatever the outcome of
the read — the device settings are bit-for-bit the ones from before the
call: the guard snapshots them on acquisition and its release re-applies the
pristine snapshot. -/
theorem claim_C3_settings_restored (t : Termios) (source : List Nat) (sink : Sink) :
    (Terminal.read_password (some t) source).2 = some t ∧
    (Terminal.read_password_with_feedback (some t) source sink).2 = some t ∧
    (Terminal.read_cleartext (some t) source).2 = some t :=
  ⟨rfl, rfl, rfl⟩

/-- Claim C8: when `/dev/tty` cannot be opened, `HiddenInput::new` returns
"no guard" (`Ok(None)`) rather than an error, and
`read_password_with_feedback` runs the silent read over the session's
channel: its outcome is exactly the silent read's outcome, the sink is
untouched, and the call does not fail on account of the missing device. -/
theorem claim_C8_no_tty_fallback (source : List Nat) (sink : Sink) :
    HiddenInput.new true none = (.ok none, none) ∧
    Terminal.read_password_with_feedback none source sink
      = (((read_unbuffered source).1, (read_unbuffered source).2, sink), none) :=
  ⟨rfl, rfl⟩

/-! ### Helper lemmas: the display sink -/

/-- `i` copies of the erase sequence, the display trace of erasing `i`
masks. -/
def eraseSeqs : Nat → List Nat
  | 0 => []
  | n + 1 => eraseSeq ++ eraseSeqs n

theorem Sink.write_ok (s : Sink) (bs : List Nat) (h : s.accepts s.calls = true) :
    s.write bs = (true, { s with calls := s.calls + 1, written := s.written ++ bs }) := by
  rw [Sink.write, if_pos h]

/-- On a sink that accepts every write, `erase_feedback` makes exactly `i`
calls and appends `i` erase sequences. -/
theorem erase_feedback_ok (i : Nat) :
    ∀ s : Sink, (∀ n, s.accepts n = true) →
      erase_feedback s i
        = { s with calls := s.calls + i, written := s.written ++ eraseSeqs i } := by
  induction i with
  | zero => intro s _; simp [erase_feedback, eraseSeqs]
  | succ n ih =>
    intro s hacc
    rw [erase_feedback, s.write_ok eraseSeq (hacc s.calls)]
    show erase_feedback { s with calls := s.calls + 1, written := s.written ++ eraseSeq } n = _
    rw [ih { s with calls := s.calls + 1, written := s.written ++ eraseSeq } (fun m => hacc m)]
    simp only [eraseSeqs, Sink.mk.injEq, true_and]
    exact ⟨by omega, by simp [List.append_assoc]⟩

/-- On a sink that accepts every write, the `VEOF` loop's display half makes
exactly `i` calls and appends `i` erase sequences. -/
theorem eofEraseLoop_ok (i : Nat) :
    ∀ s : Sink, (∀ n, s.accepts n = true) →
      eofEraseLoop s i
        = { s with calls := s.calls + i, written := s.written ++ eraseSeqs i } := by
  induction i with
  | zero => intro s _; simp [eofEraseLoop, eraseSeqs]
  | succ n ih =>
    intro s hacc
    rw [eofEraseLoop, s.write_ok eraseSeq (hacc s.calls)]
    show eofEraseLoop { s with calls := s.calls + 1, written := s.written ++ eraseSeq } n = _
    rw [ih { s with calls := s.calls + 1, written := s.written ++ eraseSeq } (fun m => hacc m)]
    simp only [eraseSeqs, Sink.mk.injEq, true_and]
    exact ⟨by omega, by simp [List.append_assoc]⟩

/-- `erase_feedback` never changes the sink's accept function. -/
theorem erase_feedback_accepts (i : Nat) :
    ∀ s : Sink, (erase_feedback s i).accepts = s.accepts := by
  induction i with
  | zero => intro s; rfl
  | succ n ih =>
    intro s
    rw [erase_feedback]
    by_cases h : (s.write eraseSeq).1
    · rw [if_pos h, ih]
      simp [Sink.write]
      split <;> rfl
    · rw [if_neg h]
      simp [Sink.write]
      split <;> rfl

/-- `erase_feedback` never decreases the sink's call counter. -/
theorem erase_feedback_calls_ge (i : Nat) :
    ∀ s : Sink, s.calls ≤ (erase_feedback s i).calls := by
  induction i with
  | zero => intro s; exact Nat.le_refl _
  | succ n ih =>
    intro s
    rw [erase_feedback]
    by_cases h : (s.write eraseSeq).1
    · rw [if_pos h]
      refine Nat.le_trans ?_ (ih _)
      simp [Sink.write]
      split <;> simp
    · rw [if_neg h]
      simp [Sink.write]
      split <;> simp

/-! ### Helper lemmas: buffer indexing and `zeroDown` -/

theorem getD_set_ne (l : List Nat) : ∀ i j b : Nat, i ≠ j →
    (l.set i b).getD j 0 = l.getD j 0 := by
  induction l with
  | nil => intro i j b _; simp
  | cons a l ih =>
    intro i j b hne
    match i, j with
    | 0, 0 => exact absurd rfl hne
    | 0, j + 1 => simp
    | i + 1, 0 => simp
    | i + 1, j + 1 =>
      rw [List.set_cons_succ, List.getD_cons_succ, List.getD_cons_succ]
      exact ih i j b (by omega)

theorem getD_set_self_zero (l : List Nat) : ∀ i : Nat, (l.set i 0).getD i 0 = 0 := by
  induction l with
  | nil => intro i; simp
  | cons a l ih =>
    intro i
    match i with
    | 0 => simp
    | i + 1 =>
      rw [List.set_cons_succ, List.getD_cons_succ]
      exact ih i

theorem getD_replicate_zero (n : Nat) : ∀ j : Nat, (List.replicate n (0 : Nat)).getD j 0 = 0 := by
  induction n with
  | zero => intro j; simp
  | succ n ih =>
    intro j
    rw [List.replicate_succ]
    match j with
    | 0 => simp
    | j + 1 => rw [List.getD_cons_succ]; exact ih j

theorem zeroDown_getD_ge (i : Nat) : ∀ (buf : List Nat) (j : Nat), i ≤ j →
    (zeroDown buf i).getD j 0 = buf.getD j 0 := by
  induction i with
  | zero => intro buf j _; rfl
  | succ n ih =>
    intro buf j hj
    rw [zeroDown, ih (buf.set n 0) j (by omega), getD_set_ne buf n j 0 (by omega)]

theorem zeroDown_getD_lt (i : Nat) : ∀ (buf : List Nat) (j : Nat), j < i →
    (zeroDown buf i).getD j 0 = 0 := by
  induction i with
  | zero => intro buf j hj; omega
  | succ n ih =>
    intro buf j hj
    rw [zeroDown]
    rcases Nat.lt_or_ge j n with h | h
    · exact ih (buf.set n 0) j h
    · have hjn : j = n := by omega
      subst hjn
      rw [zeroDown_getD_ge j (buf.set j 0) j (Nat.le_refl j)]
      exact getD_set_self_zero buf j

/-! ### Helper lemmas: single steps of the feedback loop -/

theorem pairEq {α β : Type} (a a' : α) (b b' : β) (h1 : a = a') (h2 : b = b') :
    (a, b) = (a', b') := by rw [h1, h2]

theorem Sink.ext_eq (a b : Sink) (h1 : a.accepts = b.accepts) (h2 : a.calls = b.calls)
    (h3 : a.written = b.written) : a = b := by
  cases a; cases b; simp_all

theorem Sink.write_accepts (s : Sink) (bs : List Nat) :
    ((s.write bs).2).accepts = s.accepts := by
  rw [Sink.write]; split <;> rfl

theorem Sink.write_calls (s : Sink) (bs : List Nat) :
    ((s.write bs).2).calls = s.calls + 1 := by
  rw [Sink.write]; split <;> rfl

/-- A plain byte with room left: store it, advance, write one mask. Holds
whatever the sink does with the write. -/
theorem feedback_step_store (cc : Termios) (buf : List Nat) (i b : Nat) (rest : List Nat)
    (s : Sink) (h1 : ¬(b = 10 ∨ b = 13)) (h2 : b ≠ cc.veof) (h3 : b ≠ cc.verase)
    (h4 : b ≠ cc.vkill) (hi : i < SIZE) :
    feedbackLoop cc buf i (b :: rest) s
      = feedbackLoop cc (buf.set i b) (i + 1) rest (s.write [42]).2 := by
  rw [feedbackLoop, if_neg h1, if_neg h2, if_neg h3, if_neg h4, if_pos hi]

/-- The erase control code with at least one mask drawn: zero the last byte,
step back, write one erase sequence. Holds whatever the sink does. -/
theorem feedback_step_erase (cc : Termios) (buf : List Nat) (i : Nat) (rest : List Nat)
    (s : Sink) (h1 : cc.verase ≠ 10) (h2 : cc.verase ≠ 13) (h3 : cc.verase ≠ cc.veof)
    (hi : 0 < i) :
    feedbackLoop cc buf i (cc.verase :: rest) s
      = feedbackLoop cc (buf.set (i - 1) 0) (i - 1) rest (s.write eraseSeq).2 := by
  rw [feedbackLoop, if_neg (fun h => h.elim h1 h2), if_neg h3, if_pos rfl, if_pos hi]

/-- The newline / carriage-return terminator on a sink accepting every
write: `i` erase sequences (the drawn masks are erased), then one newline,
then successful termination with the accumulated buffer; the terminator
itself is not stored and the rest of the source is left unconsumed. -/
theorem feedback_newline_all_ok (cc : Termios) (buf : List Nat) (i b : Nat)
    (rest : List Nat) (s : Sink) (hb : b = 10 ∨ b = 13) (hacc : ∀ n, s.accepts n = true) :
    feedbackLoop cc buf i (b :: rest) s
      = (.ok buf, rest,
         { s with calls := s.calls + i + 1, written := s.written ++ eraseSeqs i ++ [10] }) := by
  have hw := Sink.write_ok
    { s with calls := s.calls + i, written := s.written ++ eraseSeqs i } [10] (hacc (s.calls + i))
  rcases hb with rfl | rfl <;>
    simp [feedbackLoop, erase_feedback_ok i s hacc, hw]

/-! ### Claims C5 and C6 -/

/-- Claim C5: when a newline or carriage-return byte is read, the feedback
reader first emits one erase sequence per currently drawn mask, then writes
exactly one newline to the display, and terminates successfully with the
bytes accumulated so far; the terminator byte is not stored in the buffer. -/
theorem claim_C5_newline_terminator (cc : Termios) (buf : List Nat) (i b : Nat)
    (rest : List Nat) (s : Sink) (hb : b = 10 ∨ b = 13) (hacc : ∀ n, s.accepts n = true) :
    feedbackLoop cc buf i (b :: rest) s
      = (.ok buf, rest,
         { s with calls := s.calls + i + 1, written := s.written ++ eraseSeqs i ++ [10] }) :=
  feedback_newline_all_ok cc buf i b rest s hb hacc

/-- Witness for C5: newline arriving with two masks drawn. -/
theorem claim_C5_witness :
    feedbackLoop ⟨0, 4, 127, 21⟩ PamBuffer.default 2 (10 :: []) ⟨fun _ => true, 0, []⟩
      = (.ok PamBuffer.default, [],
         { accepts := fun _ => true, calls := 3, written := [8, 32, 8, 8, 32, 8, 10] }) :=
  claim_C5_newline_terminator ⟨0, 4, 127, 21⟩ PamBuffer.default 2 10 []
    ⟨fun _ => true, 0, []⟩ (Or.inl rfl) (fun _ => rfl)

/-- Claim C6: when the byte read is the terminal's end-of-input control
code (from the pristine snapshot), the accumulated bytes are zeroed walking
backward from the current length, exactly one erase sequence is emitted per
removed character, and the read terminates successfully; no newline is
emitted for this terminator. Every buffer byte below the old length is zero
afterwards; in particular typing "ab" then the end-of-input code yields the
all-zero (empty) secret and exactly two erase sequences on the display. -/
theorem claim_C6_veof_clears_line (cc : Termios) (buf : List Nat) (i : Nat)
    (rest : List Nat) (s : Sink) (h10 : cc.veof ≠ 10) (h13 : cc.veof ≠ 13)
    (hacc : ∀ n, s.accepts n = true) :
    (feedbackLoop cc buf i (cc.veof :: rest) s
      = (.ok (zeroDown buf i), rest,
         { s with calls := s.calls + i, written := s.written ++ eraseSeqs i }))
    ∧ (∀ j, j < i → (zeroDown buf i).getD j 0 = 0)
    ∧ read_unbuffered_with_feedback ⟨0, 4, 127, 21⟩ [97, 98, 4] ⟨fun _ => true, 0, []⟩
      = (.ok PamBuffer.default, [],
         ⟨fun _ => true, 4, [42, 42, 8, 32, 8, 8, 32, 8]⟩) := by
  refine ⟨?_, fun j hj => zeroDown_getD_lt i buf j hj, ?_⟩
  · rw [feedbackLoop, if_neg (fun h => h.elim h10 h13), if_pos rfl, eofEraseLoop_ok i s hacc]
  · rfl

/-- Witness for C6: the end-of-input code arriving with "ab" stored. -/
theorem claim_C6_witness :
    feedbackLoop ⟨0, 4, 127, 21⟩ ((PamBuffer.default.set 0 97).set 1 98) 2 (4 :: [])
        ⟨fun _ => true, 2, [42, 42]⟩
      = (.ok (zeroDown ((PamBuffer.default.set 0 97).set 1 98) 2), [],
         { accepts := fun _ => true, calls := 4, written := [42, 42, 8, 32, 8, 8, 32, 8] }) :=
  (claim_C6_veof_clears_line ⟨0, 4, 127, 21⟩ ((PamBuffer.default.set 0 97).set 1 98) 2 []
    ⟨fun _ => true, 2, [42, 42]⟩ (by decide) (by decide) (fun _ => rfl)).1

/-! ### Claim C4: the backspace scenario -/

/-- Counterexample to claim C4 as stated: typing "ab", backspace, "c",
newline does yield the secret "ac", but the display stream is not
`*`, `*`, erase-sequence, `*`, newline and nothing else: on the newline
terminator the code first runs `erase_feedback(sink, i)`, emitting one
erase sequence per mask still drawn (two), before writing the newline. -/
theorem claim_C4_counterexample :
    (read_unbuffered_with_feedback ⟨0, 4, 127, 21⟩ [97, 98, 127, 99, 10]
        ⟨fun _ => true, 0, []⟩).2.2.written ≠ [42, 42, 8, 32, 8, 42, 10] := by
  decide

/-- Claim C4 as amended: typing "ab", then the erase code, then "c", then
newline yields the secret "ac", and the display stream is one `*`, one `*`,
one erase sequence, one `*`, then — erasing the two masks still drawn before
the terminating newline — two further erase sequences, then one newline,
and nothing else. -/
theorem claim_C4_amended (cc : Termios) (s : Sink) (hacc : ∀ n, s.accepts n = true)
    (h97e : (97 : Nat) ≠ cc.veof) (h97r : (97 : Nat) ≠ cc.verase) (h97k : (97 : Nat) ≠ cc.vkill)
    (h98e : (98 : Nat) ≠ cc.veof) (h98r : (98 : Nat) ≠ cc.verase) (h98k : (98 : Nat) ≠ cc.vkill)
    (h99e : (99 : Nat) ≠ cc.veof) (h99r : (99 : Nat) ≠ cc.verase) (h99k : (99 : Nat) ≠ cc.vkill)
    (hr10 : cc.verase ≠ 10) (hr13 : cc.verase ≠ 13) (hre : cc.verase ≠ cc.veof) :
    read_unbuffered_with_feedback cc [97, 98, cc.verase, 99, 10] s
      = (.ok ((PamBuffer.default.set 0 97).set 1 99), [],
         { s with calls := s.calls + 7,
                  written := s.written ++ [42, 42, 8, 32, 8, 42, 8, 32, 8, 8, 32, 8, 10] })
    ∧ (PamBuffer.default.set 0 97).set 1 99 = 97 :: 99 :: List.replicate 510 0 := by
  constructor
  · rw [read_unbuffered_with_feedback]
    rw [feedback_step_store cc PamBuffer.default 0 97 [98, cc.verase, 99, 10] s
      (by decide) h97e h97r h97k (by decide)]
    rw [Sink.write_ok s [42] (hacc s.calls)]
    show feedbackLoop cc (PamBuffer.default.set 0 97) 1 [98, cc.verase, 99, 10]
      { s with calls := s.calls + 1, written := s.written ++ [42] } = _
    rw [feedback_step_store cc (PamBuffer.default.set 0 97) 1 98 [cc.verase, 99, 10]
      { s with calls := s.calls + 1, written := s.written ++ [42] }
      (by decide) h98e h98r h98k (by decide)]
    rw [Sink.write_ok { s with calls := s.calls + 1, written := s.written ++ [42] } [42]
      (hacc (s.calls + 1))]
    show feedbackLoop cc ((PamBuffer.default.set 0 97).set 1 98) 2 [cc.verase, 99, 10]
      { s with calls := s.calls + 1 + 1, written := s.written ++ [42] ++ [42] } = _
    rw [feedback_step_erase cc ((PamBuffer.default.set 0 97).set 1 98) 2 [99, 10]
      { s with calls := s.calls + 1 + 1, written := s.written ++ [42] ++ [42] }
      hr10 hr13 hre (by decide)]
    rw [Sink.write_ok { s with calls := s.calls + 1 + 1, written := s.written ++ [42] ++ [42] }
      eraseSeq (hacc (s.calls + 1 + 1))]
    show feedbackLoop cc (((PamBuffer.default.set 0 97).set 1 98).set 1 0) 1 [99, 10]
      { s with calls := s.calls + 1 + 1 + 1,
               written := s.written ++ [42] ++ [42] ++ eraseSeq } = _
    rw [feedback_step_store cc (((PamBuffer.default.set 0 97).set 1 98).set 1 0) 1 99 [10]
      { s with calls := s.calls + 1 + 1 + 1, written := s.written ++ [42] ++ [42] ++ eraseSeq }
      (by decide) h99e h99r h99k (by decide)]
    rw [Sink.write_ok
      { s with calls := s.calls + 1 + 1 + 1, written := s.written ++ [42] ++ [42] ++ eraseSeq }
      [42] (hacc (s.calls + 1 + 1 + 1))]
    show feedbackLoop cc ((((PamBuffer.default.set 0 97).set 1 98).set 1 0).set 1 99) 2 [10]
      { s with calls := s.calls + 1 + 1 + 1 + 1,
               written := s.written ++ [42] ++ [42] ++ eraseSeq ++ [42] } = _
    rw [feedback_newline_all_ok cc ((((PamBuffer.default.set 0 97).set 1 98).set 1 0).set 1 99)
      2 10 []
      { s with calls := s.calls + 1 + 1 + 1 + 1,
               written := s.written ++ [42] ++ [42] ++ eraseSeq ++ [42] }
      (Or.inl rfl) (fun n => hacc n)]
    refine pairEq _ _ _ _ (congrArg Except.ok (by decide)) (pairEq _ _ _ _ rfl ?_)
    refine Sink.ext_eq _ _ rfl ?_ ?_
    · show s.calls + 1 + 1 + 1 + 1 + 2 + 1 = s.calls + 7
      omega
    · show s.written ++ [42] ++ [42] ++ eraseSeq ++ [42] ++ eraseSeqs 2 ++ [10]
        = s.written ++ [42, 42, 8, 32, 8, 42, 8, 32, 8, 8, 32, 8, 10]
      simp [eraseSeq, eraseSeqs, BACKSPACE, List.append_assoc]
  · decide

/-- Witness for the amended C4 at the standard Linux control codes. -/
theorem claim_C4_witness :
    read_unbuffered_with_feedback ⟨0, 4, 127, 21⟩ [97, 98, 127, 99, 10] ⟨fun _ => true, 0, []⟩
      = (.ok ((PamBuffer.default.set 0 97).set 1 99), [],
         { accepts := fun _ => true, calls := 7,
           written := [42, 42, 8, 32, 8, 42, 8, 32, 8, 8, 32, 8, 10] })
    ∧ (PamBuffer.default.set 0 97).set 1 99 = 97 :: 99 :: List.replicate 510 0 :=
  claim_C4_amended ⟨0, 4, 127, 21⟩ ⟨fun _ => true, 0, []⟩ (fun _ => rfl)
    (by decide) (by decide) (by decide) (by decide) (by decide) (by decide)
    (by decide) (by decide) (by decide) (by decide) (by decide) (by decide)

/-! ### Claim C7: display-write failures -/

/-- The buffer outcome and unconsumed input of a feedback-read result,
without the sink. -/
def readOutcome (r : Except ReadError (List Nat) × List Nat × Sink) :
    Except ReadError (List Nat) × List Nat := (r.1, r.2.1)

/-- The newline / carriage-return step for an arbitrary sink: the read ends
with `Ok` or with `ioError` according to whether the newline write (made
after the best-effort `erase_feedback`) succeeds. -/
theorem feedback_step_terminator (cc : Termios) (buf : List Nat) (i b : Nat)
    (rest : List Nat) (s : Sink) (hb : b = 10 ∨ b = 13) :
    feedbackLoop cc buf i (b :: rest) s
      = if ((erase_feedback s i).write [10]).1
        then (.ok buf, rest, ((erase_feedback s i).write [10]).2)
        else (.error .ioError, rest, ((erase_feedback s i).write [10]).2) := by
  rcases hb with rfl | rfl <;> rw [feedbackLoop, if_pos (by decide)]

/-- Swallowed display errors: the buffer outcome and the consumed input of
the feedback loop do not depend on the sink at all, except that a run can
end in `ioError` (which only the newline write can produce). -/
theorem feedback_outcome_sink_independent (input : List Nat) :
    ∀ (cc : Termios) (buf : List Nat) (i : Nat) (s1 s2 : Sink),
      readOutcome (feedbackLoop cc buf i input s1)
          = readOutcome (feedbackLoop cc buf i input s2)
        ∨ (feedbackLoop cc buf i input s1).1 = .error .ioError
        ∨ (feedbackLoop cc buf i input s2).1 = .error .ioError := by
  induction input with
  | nil => intro cc buf i s1 s2; exact Or.inl rfl
  | cons b rest ih =>
    intro cc buf i s1 s2
    by_cases h1 : b = 10 ∨ b = 13
    · rw [feedback_step_terminator cc buf i b rest s1 h1,
        feedback_step_terminator cc buf i b rest s2 h1]
      by_cases hw1 : ((erase_feedback s1 i).write [10]).1 = true
      · by_cases hw2 : ((erase_feedback s2 i).write [10]).1 = true
        · rw [if_pos hw1, if_pos hw2]; exact Or.inl rfl
        · rw [if_neg hw2]; exact Or.inr (Or.inr rfl)
      · rw [if_neg hw1]; exact Or.inr (Or.inl rfl)
    · rw [feedbackLoop, feedbackLoop, if_neg h1, if_neg h1]
      by_cases hveof : b = cc.veof
      · rw [if_pos hveof, if_pos hveof]; exact Or.inl rfl
      · rw [if_neg hveof, if_neg hveof]
        by_cases hverase : b = cc.verase
        · rw [if_pos hverase, if_pos hverase]
          by_cases hi : 0 < i
          · rw [if_pos hi, if_pos hi]; exact ih cc _ _ _ _
          · rw [if_neg hi, if_neg hi]; exact ih cc _ _ _ _
        · rw [if_neg hverase, if_neg hverase]
          by_cases hvkill : b = cc.vkill
          · rw [if_pos hvkill, if_pos hvkill]; exact ih cc _ _ _ _
          · rw [if_neg hvkill, if_neg hvkill]
            by_cases hsz : i < SIZE
            · rw [if_pos hsz, if_pos hsz]; exact ih cc _ _ _ _
            · rw [if_neg hsz, if_neg hsz]; exact Or.inl rfl

/-- A sink that keeps failing makes the newline terminator fail the call
with `ioError` (the erase failures before it are swallowed). -/
theorem feedback_newline_write_failure (cc : Termios) (buf : List Nat) (i b : Nat)
    (rest : List Nat) (s : Sink) (hb : b = 10 ∨ b = 13)
    (hfail : ∀ n, s.calls ≤ n → s.accepts n = false) :
    feedbackLoop cc buf i (b :: rest) s
      = (.error .ioError, rest, ((erase_feedback s i).write [10]).2) := by
  have h1 : ((erase_feedback s i).write [10]).1 = false := by
    rw [Sink.write, erase_feedback_accepts i s, hfail _ (erase_feedback_calls_ge i s)]
    simp
  rw [feedback_step_terminator cc buf i b rest s hb, h1]
  simp

/-- Claim C7: a failed display write of a mask or of an erase sequence
never changes the read's buffer outcome or input consumption (first
conjunct: the outcome is sink-independent up to `ioError` endings, and only
the newline write produces `ioError`), whereas a failure to write the
terminating newline after a newline / carriage-return terminator propagates
as `ioError` and fails the call (second conjunct). -/
theorem claim_C7_display_write_errors :
    (∀ (cc : Termios) (buf : List Nat) (i : Nat) (input : List Nat) (s1 s2 : Sink),
      readOutcome (feedbackLoop cc buf i input s1)
          = readOutcome (feedbackLoop cc buf i input s2)
        ∨ (feedbackLoop cc buf i input s1).1 = .error .ioError
        ∨ (feedbackLoop cc buf i input s2).1 = .error .ioError)
    ∧ (∀ (cc : Termios) (buf : List Nat) (i b : Nat) (rest : List Nat) (s : Sink),
        (b = 10 ∨ b = 13) → (∀ n, s.calls ≤ n → s.accepts n = false) →
        (feedbackLoop cc buf i (b :: rest) s).1 = .error .ioError) :=
  ⟨fun cc buf i input s1 s2 => feedback_outcome_sink_independent input cc buf i s1 s2,
   fun cc buf i b rest s hb hfail => by
     rw [feedback_newline_write_failure cc buf i b rest s hb hfail]⟩

/-- Witness for C7: an always-failing sink receiving a newline with two
masks drawn fails the read with `ioError`. -/
theorem claim_C7_witness :
    (feedbackLoop ⟨0, 4, 127, 21⟩ PamBuffer.default 2 (10 :: []) ⟨fun _ => false, 0, []⟩).1
      = .error .ioError :=
  claim_C7_display_write_errors.2 ⟨0, 4, 127, 21⟩ PamBuffer.default 2 10 []
    ⟨fun _ => false, 0, []⟩ (Or.inl rfl) (fun _ _ => rfl)

/-! ### Claim C9: the zero-beyond-length invariant -/

/-- Every buffer byte at an index at or beyond `i` is zero (out-of-range
reads default to zero). -/
def ZeroBeyond (buf : List Nat) (i : Nat) : Prop :=
  ∀ j, i ≤ j → buf.getD j 0 = 0

/-- Ghost function: the logical secret length after the silent read's loop
runs on `input` starting from slot `idx`, mirroring `silentLoop`. -/
def silentLen : Nat → List Nat → Nat
  | idx, [] => idx
  | idx, b :: rest =>
    if b = 10 then idx else if idx < SIZE then silentLen (idx + 1) rest else idx

/-- Ghost function: the logical secret length after the feedback loop runs
on `input` starting from length `i`, mirroring `feedbackLoop`. -/
def feedbackLen (cc : Termios) : Nat → List Nat → Nat
  | i, [] => i
  | i, b :: rest =>
    if b = 10 ∨ b = 13 then i
    else if b = cc.veof then 0
    else if b = cc.verase then
      (if 0 < i then feedbackLen cc (i - 1) rest else feedbackLen cc i rest)
    else if b = cc.vkill then feedbackLen cc 0 rest
    else if i < SIZE then feedbackLen cc (i + 1) rest else i

theorem zeroBeyond_default : ZeroBeyond PamBuffer.default 0 :=
  fun j _ => getD_replicate_zero CAPACITY j

theorem zeroBeyond_set (buf : List Nat) (i b : Nat) (h : ZeroBeyond buf i) :
    ZeroBeyond (buf.set i b) (i + 1) := fun j hj => by
  rw [getD_set_ne buf i j b (by omega)]
  exact h j (by omega)

theorem zeroBeyond_erase (buf : List Nat) (i : Nat) (h : ZeroBeyond buf i) :
    ZeroBeyond (buf.set (i - 1) 0) (i - 1) := fun j hj => by
  rcases Nat.eq_or_lt_of_le hj with he | hlt
  · rw [← he]
    exact getD_set_self_zero buf (i - 1)
  · rw [getD_set_ne buf (i - 1) j 0 (by omega)]
    rcases Nat.lt_or_ge j i with hji | hji
    · have : j = i - 1 := by omega
      omega
    · exact h j hji

theorem zeroBeyond_zeroDown (buf : List Nat) (i : Nat) (h : ZeroBeyond buf i) :
    ZeroBeyond (zeroDown buf i) 0 := fun j _ => by
  rcases Nat.lt_or_ge j i with hlt | hge
  · exact zeroDown_getD_lt i buf j hlt
  · rw [zeroDown_getD_ge i buf j hge]
    exact h j hge

/-- The silent loop preserves the zero-beyond-length invariant, with the
final length given by the ghost function. Quantifying over every start
state `(buf, idx)` makes this the statement that the invariant holds at
every intermediate state of the loop. -/
theorem silentLoop_zeroBeyond (input : List Nat) :
    ∀ (buf : List Nat) (idx : Nat) (out rem : List Nat), ZeroBeyond buf idx →
      silentLoop buf idx input = (.ok out, rem) →
      ZeroBeyond out (silentLen idx input) := by
  induction input with
  | nil =>
    intro buf idx out rem hz heq
    rw [silentLoop] at heq
    injection heq with hA hB
    injection hA with hA
    rw [silentLen, ← hA]
    exact hz
  | cons b rest ih =>
    intro buf idx out rem hz heq
    rw [silentLoop] at heq
    rw [silentLen]
    by_cases hb : b = 10
    · rw [if_pos hb] at heq
      rw [if_pos hb]
      injection heq with hA hB
      injection hA with hA
      rw [← hA]
      exact hz
    · rw [if_neg hb] at heq
      rw [if_neg hb]
      by_cases hidx : idx < SIZE
      · rw [if_pos hidx] at heq
        rw [if_pos hidx]
        exact ih _ _ _ _ (zeroBeyond_set buf idx b hz) heq
      · rw [if_neg hidx] at heq
        injection heq with hA hB
        exact Except.noConfusion hA

/-- The feedback loop preserves the zero-beyond-length invariant, with the
final length given by the ghost function. -/
theorem feedbackLoop_zeroBeyond (input : List Nat) :
    ∀ (cc : Termios) (buf : List Nat) (i : Nat) (s : Sink) (out rem : List Nat) (s2 : Sink),
      ZeroBeyond buf i →
      feedbackLoop cc buf i input s = (.ok out, rem, s2) →
      ZeroBeyond out (feedbackLen cc i input) := by
  induction input with
  | nil =>
    intro cc buf i s out rem s2 hz heq
    rw [feedbackLoop] at heq
    injection heq with hA hB
    injection hA with hA
    rw [feedbackLen, ← hA]
    exact hz
  | cons b rest ih =>
    intro cc buf i s out rem s2 hz heq
    rw [feedbackLen]
    by_cases h1 : b = 10 ∨ b = 13
    · rw [feedback_step_terminator cc buf i b rest s h1] at heq
      rw [if_pos h1]
      by_cases hw : ((erase_feedback s i).write [10]).1 = true
      · rw [if_pos hw] at heq
        injection heq with hA hB
        injection hA with hA
        rw [← hA]
        exact hz
      · rw [if_neg hw] at heq
        injection heq with hA hB
        exact Except.noConfusion hA
    · rw [feedbackLoop] at heq
      rw [if_neg h1] at heq
      rw [if_neg h1]
      by_cases hveof : b = cc.veof
      · rw [if_pos hveof] at heq
        rw [if_pos hveof]
        injection heq with hA hB
        injection hA with hA
        rw [← hA]
        exact zeroBeyond_zeroDown buf i hz
      · rw [if_neg hveof] at heq
        rw [if_neg hveof]
        by_cases hverase : b = cc.verase
        · rw [if_pos hverase] at heq
          rw [if_pos hverase]
          by_cases hi : 0 < i
          · rw [if_pos hi] at heq
            rw [if_pos hi]
            exact ih cc _ _ _ _ _ _ (zeroBeyond_erase buf i hz) heq
          · rw [if_neg hi] at heq
            rw [if_neg hi]
            exact ih cc _ _ _ _ _ _ hz heq
        · rw [if_neg hverase] at heq
          rw [if_neg hverase]
          by_cases hvkill : b = cc.vkill
          · rw [if_pos hvkill] at heq
            rw [if_pos hvkill]
            exact ih cc _ _ _ _ _ _ (zeroBeyond_zeroDown buf i hz) heq
          · rw [if_neg hvkill] at heq
            rw [if_neg hvkill]
            by_cases hsz : i < SIZE
            · rw [if_pos hsz] at heq
              rw [if_pos hsz]
              exact ih cc _ _ _ _ _ _ (zeroBeyond_set buf i b hz) heq
            · rw [if_neg hsz] at heq
              injection heq with hA hB
              exact Except.noConfusion hA

/-- Claim C9: throughout every silent and feedback read the buffer has only
zeros at and beyond the current logical length: the buffer starts
zero-filled, and both loops preserve the invariant from any start state
(hence at every intermediate state), ending at the ghost length. -/
theorem claim_C9_zero_beyond_length :
    ZeroBeyond PamBuffer.default 0
    ∧ (∀ (input buf : List Nat) (idx : Nat) (out rem : List Nat), ZeroBeyond buf idx →
        silentLoop buf idx input = (.ok out, rem) →
        ZeroBeyond out (silentLen idx input))
    ∧ (∀ (input : List Nat) (cc : Termios) (buf : List Nat) (i : Nat) (s : Sink)
        (out rem : List Nat) (s2 : Sink), ZeroBeyond buf i →
        feedbackLoop cc buf i input s = (.ok out, rem, s2) →
        ZeroBeyond out (feedbackLen cc i input)) :=
  ⟨zeroBeyond_default,
   fun input buf idx out rem => silentLoop_zeroBeyond input buf idx out rem,
   fun input cc buf i s out rem s2 => feedbackLoop_zeroBeyond input cc buf i s out rem s2⟩

/-- Witness for C9: one stored byte, then newline. -/
theorem claim_C9_witness :
    ZeroBeyond (PamBuffer.default.set 0 97) (silentLen 0 [97, 10]) :=
  claim_C9_zero_beyond_length.2.1 [97, 10] PamBuffer.default 0 (PamBuffer.default.set 0 97) []
    zeroBeyond_default rfl

/-! ### Claim C10: end of stream -/

/-- Claim C10: when the source is exhausted before any terminator and
before the capacity boundary, the feedback read returns success with the
bytes accumulated so far and the termination itself writes nothing to the
display (the drawn masks stay); concretely, a stream ending after "ab"
yields those two bytes with exactly the two masks on the display. -/
theorem claim_C10_end_of_stream :
    (∀ (cc : Termios) (buf : List Nat) (i : Nat) (s : Sink),
      feedbackLoop cc buf i [] s = (.ok buf, [], s))
    ∧ read_unbuffered_with_feedback ⟨0, 4, 127, 21⟩ [97, 98] ⟨fun _ => true, 0, []⟩
      = (.ok ((PamBuffer.default.set 0 97).set 1 98), [], ⟨fun _ => true, 2, [42, 42]⟩) :=
  ⟨fun _ _ _ _ => rfl, rfl⟩

end RPassword
